import Mathlib

/-!
Verification of the firemyna development-time build engine.

Filesystem paths are modelled as lists of segments (`List String`): the
absolute path `/root/fns/a.ts` becomes `["root", "fns", "a.ts"]` and the
relative path `fns/a.ts` becomes `["fns", "a.ts"]`.  Node's `path` helpers
(`relative`, `resolve`, `normalize`, `parse`) are embedded on this
representation below.  Regular-expression tests from the source are embedded
as the decidable predicates they denote (the regexes are anchored on both
sides, so each test is an exact shape check on the string).
-/

namespace Firemyna

/-- Length of the common leading run of two segment lists (used by Node's
`path.relative`, which first strips the common ancestor). -/
def commonLen : List String → List String → Nat
  | f :: fs, t :: ts => if f = t then commonLen fs ts + 1 else 0
  | _, _ => 0

/-- Node `path.relative(from, to)` on segment lists: strip the common
ancestor, climb out of what remains of `from` with `..` segments, then
descend into the rest of `to`. -/
def relativePathOf (f t : List String) : List String :=
  List.replicate (f.length - commonLen f t) ".." ++ t.drop (commonLen f t)

/-- Node `path.resolve(base, p)` for a relative `p`: append the segments. -/
def resolvePath (base p : List String) : List String := base ++ p

/-- One step of Node `path.normalize`'s segment stack (accumulator is kept
reversed): drop `.` and empty segments, let `..` pop a previous real segment
and survive at the front otherwise. -/
def normStep (acc : List String) (seg : String) : List String :=
  if seg = "." ∨ seg = "" then acc
  else if seg = ".." then
    match acc with
    | [] => [".."]
    | top :: rest => if top = ".." then seg :: acc else rest
  else seg :: acc

/-- Node `path.normalize` on segment lists. -/
def normalizeSegs (segs : List String) : List String :=
  (segs.foldl normStep []).reverse

/-- Render an absolute segment list back to the path string Node would hold
(used where the source tests a regex against a full path). -/
def pathString (segs : List String) : String :=
  "/" ++ String.intercalate "/" segs

/-- Index of the last `.` of the character list, when one exists. -/
def lastDotIdx (l : List Char) : Option Nat :=
  ((List.range l.length).filter (fun i => l.get? i = some '.')).getLast?

/-- Node `path.parse(base).name`: the base name with its final extension
removed; a dot at position 0 (a leading-dot file such as `.ts`) starts no
extension, so the name is then the whole base. -/
def stemOf (base : String) : String :=
  match lastDotIdx base.data with
  | some i => if 0 < i then ⟨base.data.take i⟩ else base
  | none => base

/-- The components of Node `path.parse` that the source reads: `dir` (the
leading directory segments), `base` (the final segment) and `name` (the
final segment without its extension). -/
structure ParsedPath where
  dir : List String
  base : String
  name : String
  deriving Repr, DecidableEq

/-- Node `path.parse` on a relative segment list. -/
def parsePath (segs : List String) : ParsedPath :=
  { dir := segs.dropLast
    base := (segs.getLast?).getD ""
    name := stemOf ((segs.getLast?).getD "") }

/-- `indexRegExp = /^index\.[tj]sx?$/` — an exact match over the four
recognized index file names. -/
def indexRegExpTest (s : String) : Bool :=
  s = "index.ts" ∨ s = "index.js" ∨ s = "index.tsx" ∨ s = "index.jsx"

/-- `fnRegExp = /^.+\.[tj]sx?$/` — the string ends in a recognized script
extension preceded by at least one character. -/
def fnRegExpTest (s : String) : Bool :=
  (List.isSuffixOf ".ts".data s.data ∧ 4 ≤ s.data.length) ∨
  (List.isSuffixOf ".js".data s.data ∧ 4 ≤ s.data.length) ∨
  (List.isSuffixOf ".tsx".data s.data ∧ 5 ≤ s.data.length) ∨
  (List.isSuffixOf ".jsx".data s.data ∧ 5 ≤ s.data.length)

/-- The recognized script extensions, as the spec lists them. -/
def scriptExts : List String := [".js", ".ts", ".jsx", ".tsx"]

/-- Spec-side function-file predicate: the base name is some nonempty stem
followed by a recognized script extension. -/
def specFnFile (s : String) : Prop :=
  ∃ p ext, ext ∈ scriptExts ∧ p ≠ "" ∧ s = p ++ ext

/-- A Firebase function definition: workspace-relative source path plus the
function name. -/
structure FiremynaFunction where
  path : List String
  name : String
  deriving Repr, DecidableEq

/-- The configuration fields the functions module reads. -/
structure FiremynaConfig where
  functionsInitPath : Option (List String)
  functionsIgnorePaths : Option (List (List String → Bool))
  onlyFunctions : Option (List String)

/-- `buildConfig.paths.functions`. -/
structure FunctionsPaths where
  src : List String
  build : List String

/-- `buildConfig.paths`. -/
structure FiremynaPaths where
  functions : FunctionsPaths

/-- The build-config fields the functions module reads. -/
structure FiremynaBuildConfig where
  cwd : List String
  paths : FiremynaPaths
  config : FiremynaConfig
  renderer : Bool

/-- `isInitPath`: the path is the configured init path (compared through
`normalize`); falsy when no init path is configured. -/
def isInitPath (functionsInitPath : Option (List String)) (path : List String) : Bool :=
  match functionsInitPath with
  | some initPath => normalizeSegs path = normalizeSegs initPath
  | none => false

/-- `includedFunction`: not the init path, matched by no configured ignore
pattern, and on the allow-list when one is configured (`find` yielding no
match is embedded as `any` being false). -/
def includedFunction (buildConfig : FiremynaBuildConfig) (fn : FiremynaFunction) : Bool :=
  !isInitPath buildConfig.config.functionsInitPath fn.path &&
  !(buildConfig.config.functionsIgnorePaths.getD []).any (fun regex => regex fn.path) &&
  (buildConfig.config.onlyFunctions.isNone ||
    (buildConfig.config.onlyFunctions.getD []).contains fn.name)

/-- `parseFunction`: classify a watched path.  `processCwd` stands for
`process.cwd()` (the base of the returned `path` field). -/
def parseFunction (buildConfig : FiremynaBuildConfig) (processCwd : List String)
    (functionPath : List String) : Option FiremynaFunction :=
  let path := relativePathOf processCwd functionPath
  let relativePath := relativePathOf
    (resolvePath buildConfig.cwd buildConfig.paths.functions.src) functionPath
  let parsedPath := parsePath relativePath
  if parsedPath.dir ≠ [] then
    let nested := (parsePath parsedPath.dir).dir ≠ []
    if !nested ∧ indexRegExpTest parsedPath.base then
      some { name := String.intercalate "/" parsedPath.dir, path }
    else none
  else if fnRegExpTest parsedPath.base then
    some { name := parsedPath.name, path }
  else none

/-- `stringifyFunctionsIndex`: the init side-effect import when an init path
is configured, one re-export line per function, the renderer re-export when
the renderer flag is set, joined with newlines. -/
def stringifyFunctionsIndex (list : List FiremynaFunction)
    (buildConfig : FiremynaBuildConfig) : String :=
  String.intercalate "\n"
    ((if buildConfig.config.functionsInitPath.isSome
        then ["import \"./init.cjs\";"] else [])
      ++ list.map (fun fn =>
        "export \x7b default as " ++ fn.name ++ " \x7d from \"./" ++ fn.name ++ ".cjs\";")
      ++ (if buildConfig.renderer
        then ["export \x7b default as renderer \x7d from \"./renderer\";"] else []))

/-- The slice of `fs.Stats` the source reads. -/
structure FsStats where
  isDirectory : Bool
  deriving Repr, DecidableEq

/-- The filesystem operations the functions module performs; a rejected
promise is an `Except.error`. -/
structure FsModel where
  stat : List String → Except String FsStats
  readdir : List String → Except String (List String)

/-- `findFunctionPath`: a directory is a function when it holds an index
file; a plain file is a function when the full path matches `fnRegExp` (the
source tests the whole path string, not the base name). -/
def findFunctionPath (fs : FsModel) (cwd : List String) (path : List String) :
    Except String (Option (List String)) := do
  let stats ← fs.stat path
  if stats.isDirectory then
    let files ← fs.readdir path
    match files.find? (fun file => indexRegExpTest file) with
    | none => pure none
    | some indexFile => pure (some (relativePathOf cwd (resolvePath path [indexFile])))
  else if fnRegExpTest (pathString path) then
    pure (some (relativePathOf cwd path))
  else
    pure none

/-- The body of the `dir.map` lambda of `listFunctions`: resolve one
directory entry, classify it, apply the inclusion policy. -/
def discoverCandidate (fs : FsModel) (buildConfig : FiremynaBuildConfig)
    (itemPath : String) : Except String (Option FiremynaFunction) := do
  let fullPath := resolvePath
    (resolvePath buildConfig.cwd buildConfig.paths.functions.src) [itemPath]
  let path? ← findFunctionPath fs buildConfig.cwd fullPath
  match path? with
  | none => pure none
  | some path =>
    let name := (parsePath [itemPath]).name
    let fn : FiremynaFunction := { name, path }
    pure (if includedFunction buildConfig fn then some fn else none)

/-- `listFunctions`: read the source root, process every entry
(`Promise.all` rejects with the first per-entry rejection, embedded as
`mapM` over `Except`), and `sweep` away the entries that are not
functions. -/
def listFunctions (fs : FsModel) (buildConfig : FiremynaBuildConfig) :
    Except String (List FiremynaFunction) := do
  let dir ← fs.readdir (resolvePath buildConfig.cwd buildConfig.paths.functions.src)
  let results ← dir.mapM (discoverCandidate fs buildConfig)
  pure (results.filterMap id)

/-- The chokidar event kinds that can reach the `watcher.on("all")`
handler. -/
inductive ChokidarEvent where
  | add
  | addDir
  | change
  | unlink
  | unlinkDir
  deriving Repr, DecidableEq

/-- The watch messages delivered to the `watchListFunction` callback. -/
inductive FiremynaWatchMessage where
  | initial (functions : List FiremynaFunction)
  | function (event : ChokidarEvent) (fn : FiremynaFunction)
  | init (event : ChokidarEvent)
  deriving DecidableEq

/-- One raw filesystem notification delivered by the watcher. -/
structure WatchNotification where
  event : ChokidarEvent
  path : List String

/-- The `watcher.on("all")` handler: route add/change/unlink notifications
to the init channel or, through the classifier and inclusion policy, to the
function channel; drop everything else. -/
def routeWatchEvent (buildConfig : FiremynaBuildConfig) (processCwd : List String)
    (event : ChokidarEvent) (path : List String) : Option FiremynaWatchMessage :=
  match event with
  | .add | .change | .unlink =>
    if isInitPath buildConfig.config.functionsInitPath path then
      some (.init event)
    else
      match parseFunction buildConfig processCwd path with
      | none => none
      | some fn =>
        if includedFunction buildConfig fn then some (.function event fn) else none
  | _ => none

/-- `watchListFunction` as the message trace it delivers: a fresh
`listFunctions` result first, then one routed message per notification in
arrival order (`ignoreInitial` suppresses the watcher's own scan). -/
def watchListFunction (fs : FsModel) (buildConfig : FiremynaBuildConfig)
    (processCwd : List String) (notifications : List WatchNotification) :
    Except String (List FiremynaWatchMessage) := do
  let functions ← listFunctions fs buildConfig
  pure (FiremynaWatchMessage.initial functions ::
    notifications.filterMap (fun n => routeWatchEvent buildConfig processCwd n.event n.path))

/-- JS `String.prototype.includes` on character lists. -/
def listContainsSub (p : List Char) : List Char → Bool
  | [] => p.isPrefixOf []
  | c :: t => p.isPrefixOf (c :: t) || listContainsSub p t

/-- JS `s.includes(pat)`. -/
def strContains (s pat : String) : Bool := listContainsSub pat.data s.data

/-- JS `s.startsWith(pre)`. -/
def strStartsWith (s pre : String) : Bool := pre.data.isPrefixOf s.data

/-- What the esbuild `onResolve` callback returns. -/
structure OnResolveResult where
  path : String
  external : Bool
  deriving Repr, DecidableEq

/-- Node's `builtinModules` (imported from the platform's `module` module,
external to this repository): the stable core module names. -/
def nodeBuiltinModules : List String :=
  ["assert", "async_hooks", "buffer", "child_process", "cluster", "console",
   "constants", "crypto", "dgram", "diagnostics_channel", "dns", "domain",
   "events", "fs", "http", "http2", "https", "inspector", "module", "net",
   "os", "path", "perf_hooks", "process", "punycode", "querystring",
   "readline", "repl", "stream", "string_decoder", "timers", "tls",
   "trace_events", "tty", "url", "util", "v8", "vm", "worker_threads", "zlib"]

/-- The `onResolve` callback of `resolvePlugin`: a specifier starting with a
builtin module name is returned unresolved and external; otherwise the
resolver decides (`resolverResolve dir spec` is `enhanced-resolve`, `none`
standing for its error/no-result case), with a resolved path external
exactly when it contains `node_modules`. -/
def resolvePluginOnResolve (builtinModules : List String)
    (resolverResolve : String → String → Option String)
    (resolveDir path : String) : Except String OnResolveResult :=
  if builtinModules.any (fun module => strStartsWith path module) then
    Except.ok { path := path, external := true }
  else
    match resolverResolve resolveDir path with
    | none => Except.error ("Cannot resolve " ++ path ++ " at " ++ resolveDir)
    | some resolved =>
      Except.ok { path := resolved, external := strContains resolved "node_modules" }

/-- Observable actions of the dev-command process supervisor. -/
inductive SupAction where
  | exit (code : Nat)
  | kill (child : Nat) (signal : String)
  deriving Repr, DecidableEq

/-- The supervisor's mutable state: the `exiting` flag and the live child
list. -/
structure SupState where
  exiting : Bool
  children : List Nat
  deriving Repr, DecidableEq

/-- `exitIfNoChildren`: exit with status 0 when no child is live. -/
def exitIfNoChildren (s : SupState) : List SupAction :=
  if s.children.isEmpty then [SupAction.exit 0] else []

/-- The wake-up sources of the supervisor: a termination signal, or one
child's exit handler firing. -/
inductive SupEvent where
  | signal (sig : String)
  | childExit (child : Nat)
  deriving Repr, DecidableEq

/-- One supervisor transition: a signal sets `exiting`, exits if no child is
live, and forwards the same signal to every live child; a child exit
splices the child out and, while exiting, exits once none is left. -/
def supStep (s : SupState) : SupEvent → SupState × List SupAction
  | .signal sig =>
    let s' : SupState := { s with exiting := true }
    (s', exitIfNoChildren s' ++ s'.children.map (fun child => SupAction.kill child sig))
  | .childExit child =>
    let s' : SupState := { s with children := s.children.erase child }
    (s', if s'.exiting then exitIfNoChildren s' else [])

/-- Run the supervisor over an event sequence, collecting actions. -/
def supRun (s : SupState) : List SupEvent → SupState × List SupAction
  | [] => (s, [])
  | e :: es =>
    let step := supStep s e
    let rest := supRun step.1 es
    (rest.1, step.2 ++ rest.2)

/-- One output file of an esbuild result. -/
structure OutputFile where
  path : String
  text : String

/-- The slice of an esbuild result the dev loop uses. -/
structure BuildArtifact where
  outputFiles : List OutputFile

/-- An incremental build handle; `rebuildResult` is what its next
`rebuild()` call settles to. -/
structure BuildHandle where
  rebuildResult : Except String BuildArtifact

/-- A computation over the output directory: it transforms the disk (a map
from paths to file contents) and either returns or rejects. -/
def DevFsM (α : Type) :=
  (String → Option String) → ((String → Option String) × Except String α)

/-- `await`-sequencing over the disk: a rejection short-circuits, leaving
the disk as the failing step left it. -/
def bindFsM {α β : Type} (m : DevFsM α) (f : α → DevFsM β) : DevFsM β := fun disk =>
  match m disk with
  | (disk', Except.ok a) => f a disk'
  | (disk', Except.error e) => (disk', Except.error e)

/-- `rebuild()` on a handle: touches no file, settles like the handle. -/
def rebuildUnit (handle : BuildHandle) : DevFsM BuildArtifact := fun disk =>
  (disk, handle.rebuildResult)

/-- Modelled from the spec: `writeEsbuildFile` (the repository's esbuild
module, not among the provided sources) "persists every output buffer to
its destination, overwriting". -/
def writeEsbuildFile (build : BuildArtifact) : DevFsM Unit := fun disk =>
  ((fun p =>
    match build.outputFiles.find? (fun file => file.path = p) with
    | some file => some file.text
    | none => disk p), Except.ok ())

/-- The dev command's handler for a `change` event of a function with a
registered build: `await rebuild()`, then write the result. -/
def functionChangeHandler (handle : BuildHandle) : DevFsM Unit :=
  bindFsM (rebuildUnit handle) (fun build => writeEsbuildFile build)

/-- JS `record[key] = value` on an association-list record: replace in place
when the key exists, append otherwise. -/
def recordSet {α : Type} (m : List (String × α)) (k : String) (v : α) :
    List (String × α) :=
  if m.any (fun kv => kv.1 = k) then
    m.map (fun kv => if kv.1 = k then (k, v) else kv)
  else
    m ++ [(k, v)]

/-- JS `delete record[key]`. -/
def recordDelete {α : Type} (m : List (String × α)) (k : String) :
    List (String × α) :=
  m.filter (fun kv => kv.1 ≠ k)

/-- The dev command's consumer state: the live function list and the
per-function build-unit record. -/
structure DevState where
  functions : List FiremynaFunction
  builds : List (String × BuildHandle)

/-- The dev command's watch-message handler, restricted to its effect on
`functions` and `builds`: `initial` installs the set and registers one
build per function; a function `add` appends and registers, `change`
touches neither, `unlink` filters by name and deletes the unit (after
disposing it); init messages touch a separate `initBuild` slot only. -/
def handleWatchMessage (mkBuild : FiremynaFunction → BuildHandle) (s : DevState) :
    FiremynaWatchMessage → DevState
  | .initial fns =>
    { functions := fns
      builds := fns.foldl (fun b fn => recordSet b fn.name (mkBuild fn)) s.builds }
  | .function .add fn =>
    { functions := s.functions ++ [fn]
      builds := recordSet s.builds fn.name (mkBuild fn) }
  | .function .change _ => s
  | .function .unlink fn =>
    { functions := s.functions.filter (fun g => g.name ≠ fn.name)
      builds := recordDelete s.builds fn.name }
  | .function _ _ => s
  | .init _ => s

/-- The dev command's starting state: no functions, no builds. -/
def devInitState : DevState := { functions := [], builds := [] }

/-- The C9 invariant: the build record holds exactly one unit per live
function name. -/
def DevInv (s : DevState) : Prop :=
  (s.builds.map Prod.fst).Nodup ∧
  ∀ k, k ∈ s.builds.map Prod.fst ↔ ∃ fn ∈ s.functions, fn.name = k

/-- The recognized index file names, as the spec lists them. -/
def indexFileNames : List String := ["index.ts", "index.js", "index.tsx", "index.jsx"]

/-- A concrete build configuration (workspace `/root`, functions under
`/root/fns`, nothing configured) used for concrete evaluations. -/
def demoBuildConfig : FiremynaBuildConfig :=
  { cwd := ["root"]
    paths := { functions := { src := ["fns"], build := ["build"] } }
    config := { functionsInitPath := none, functionsIgnorePaths := none, onlyFunctions := none }
    renderer := false }

/-- A filesystem holding one directory function `foo.bar/index.ts` under the
source root. -/
def dirDotFs : FsModel :=
  { stat := fun p => if p = ["root", "fns", "foo.bar"] then .ok ⟨true⟩ else .ok ⟨false⟩
    readdir := fun p =>
      if p = ["root", "fns"] then .ok ["foo.bar"]
      else if p = ["root", "fns", "foo.bar"] then .ok ["index.ts"]
      else .error "ENOENT" }

/-- A filesystem whose listing has a readable candidate `good.ts` and a
candidate `bad.ts` whose `stat` fails. -/
def badStatFs : FsModel :=
  { stat := fun p =>
      if p = ["root", "fns", "bad.ts"] then .error "EACCES" else .ok ⟨false⟩
    readdir := fun p =>
      if p = ["root", "fns"] then .ok ["good.ts", "bad.ts"] else .error "ENOENT" }

/-- A filesystem with an empty source root. -/
def emptyFs : FsModel :=
  { stat := fun _ => .error "ENOENT"
    readdir := fun p => if p = ["root", "fns"] then .ok [] else .error "ENOENT" }

/-- The function set of the spec's `hello.ts` / `greet/index.ts` scenario. -/
def demoHelloGreet : List FiremynaFunction :=
  [{ path := ["fns", "hello.ts"], name := "hello" },
   { path := ["fns", "greet", "index.ts"], name := "greet" }]

/-!  ## Path and pattern lemmas  -/

theorem commonLen_self_append (a b : List String) : commonLen a (a ++ b) = a.length := by
  induction a with
  | nil => cases b <;> simp [commonLen]
  | cons x xs ih => simp [commonLen, ih]

theorem relativePathOf_append (a b : List String) : relativePathOf a (a ++ b) = b := by
  simp [relativePathOf, commonLen_self_append]

theorem indexRegExpTest_iff (s : String) :
    indexRegExpTest s = true ↔ s ∈ indexFileNames := by
  simp [indexRegExpTest, indexFileNames]

theorem string_eq_append_iff_suffix (s ext : String) :
    (∃ p : String, p ≠ "" ∧ s = p ++ ext) ↔
      (ext.data <:+ s.data ∧ ext.data.length < s.data.length) := by
  constructor
  · rintro ⟨p, hp, rfl⟩
    have hne : p.data ≠ [] := fun h => hp (String.ext (by simp [h]))
    refine ⟨⟨p.data, by simp⟩, ?_⟩
    have := List.length_pos.mpr hne
    simp only [String.data_append, List.length_append]
    omega
  · rintro ⟨⟨t, ht⟩, hlen⟩
    refine ⟨⟨t⟩, ?_, ?_⟩
    · intro h
      have hdata : t = [] := congrArg String.data h
      rw [hdata, List.nil_append] at ht
      rw [← ht] at hlen
      exact lt_irrefl _ hlen
    · exact (String.ext (show (String.mk t ++ ext).data = s.data by simpa using ht)).symm

theorem fnRegExpTest_iff (s : String) : fnRegExpTest s = true ↔ specFnFile s := by
  have hts : (".ts" : String).data.length = 3 := rfl
  have hjs : (".js" : String).data.length = 3 := rfl
  have htsx : (".tsx" : String).data.length = 4 := rfl
  have hjsx : (".jsx" : String).data.length = 4 := rfl
  simp only [fnRegExpTest, specFnFile, scriptExts, decide_eq_true_eq,
    List.isSuffixOf_iff_suffix]
  constructor
  · rintro (⟨h, hl⟩ | ⟨h, hl⟩ | ⟨h, hl⟩ | ⟨h, hl⟩)
    · obtain ⟨p, hp, rfl⟩ := (string_eq_append_iff_suffix s ".ts").mpr ⟨h, by omega⟩
      exact ⟨p, ".ts", by simp, hp, rfl⟩
    · obtain ⟨p, hp, rfl⟩ := (string_eq_append_iff_suffix s ".js").mpr ⟨h, by omega⟩
      exact ⟨p, ".js", by simp, hp, rfl⟩
    · obtain ⟨p, hp, rfl⟩ := (string_eq_append_iff_suffix s ".tsx").mpr ⟨h, by omega⟩
      exact ⟨p, ".tsx", by simp, hp, rfl⟩
    · obtain ⟨p, hp, rfl⟩ := (string_eq_append_iff_suffix s ".jsx").mpr ⟨h, by omega⟩
      exact ⟨p, ".jsx", by simp, hp, rfl⟩
  · rintro ⟨p, ext, hext, hp, rfl⟩
    simp only [List.mem_cons, List.not_mem_nil, or_false] at hext
    rcases hext with rfl | rfl | rfl | rfl
    · have := (string_eq_append_iff_suffix (p ++ ".js") ".js").mp ⟨p, hp, rfl⟩
      exact Or.inr (Or.inl ⟨this.1, by omega⟩)
    · have := (string_eq_append_iff_suffix (p ++ ".ts") ".ts").mp ⟨p, hp, rfl⟩
      exact Or.inl ⟨this.1, by omega⟩
    · have := (string_eq_append_iff_suffix (p ++ ".jsx") ".jsx").mp ⟨p, hp, rfl⟩
      exact Or.inr (Or.inr (Or.inr ⟨this.1, by omega⟩))
    · have := (string_eq_append_iff_suffix (p ++ ".tsx") ".tsx").mp ⟨p, hp, rfl⟩
      exact Or.inr (Or.inr (Or.inl ⟨this.1, by omega⟩))

/-!  ## Classifier case lemmas  -/

theorem parseFunction_nil (cfg : FiremynaBuildConfig) (procCwd : List String) :
    parseFunction cfg procCwd (resolvePath cfg.cwd cfg.paths.functions.src) = none := by
  have h := relativePathOf_append (resolvePath cfg.cwd cfg.paths.functions.src) []
  rw [List.append_nil] at h
  simp [parseFunction, h, parsePath, fnRegExpTest]

theorem parseFunction_flat (cfg : FiremynaBuildConfig) (procCwd : List String) (base : String) :
    parseFunction cfg procCwd (resolvePath cfg.cwd cfg.paths.functions.src ++ [base]) =
      if fnRegExpTest base then
        some { path := relativePathOf procCwd
                 (resolvePath cfg.cwd cfg.paths.functions.src ++ [base])
               name := stemOf base }
      else none := by
  simp [parseFunction, relativePathOf_append, parsePath]

theorem parseFunction_one_level (cfg : FiremynaBuildConfig) (procCwd : List String)
    (d base : String) :
    parseFunction cfg procCwd (resolvePath cfg.cwd cfg.paths.functions.src ++ [d, base]) =
      if indexRegExpTest base then
        some { path := relativePathOf procCwd
                 (resolvePath cfg.cwd cfg.paths.functions.src ++ [d, base])
               name := d }
      else none := by
  have hone : String.intercalate "/" [d] = d := rfl
  simp [parseFunction, relativePathOf_append, parsePath, hone]

theorem parseFunction_nested (cfg : FiremynaBuildConfig) (procCwd : List String)
    (a b c : String) (rest : List String) :
    parseFunction cfg procCwd
      (resolvePath cfg.cwd cfg.paths.functions.src ++ (a :: b :: c :: rest)) = none := by
  simp [parseFunction, relativePathOf_append, parsePath]

/-- C1 (counterexample): the claim says a flat file whose base name is the
index module itself is classified as none, but `parseFunction` classifies
the flat `index.ts` directly under the source root (here `/root/fns`) as a
function named `index`: `fnRegExp` does not exclude the index file name. -/
theorem parseFunction_flat_index_counterexample :
    indexRegExpTest "index.ts" = true ∧
    parseFunction demoBuildConfig ["root"] ["root", "fns", "index.ts"] =
      some { path := ["fns", "index.ts"], name := "index" } ∧
    parseFunction demoBuildConfig ["root"] ["root", "fns", "index.ts"] ≠ none := by
  refine ⟨by decide, by decide, by decide⟩

/-- C1 (amended): for every path under the function source root,
`parseFunction` yields: for a flat file directly under the root whose base
name has a recognized script extension — the index module's own file name
included — an identity named by the file stem; for a file exactly one
directory level below the root whose base name is a recognized index file
name, an identity named by the containing directory; and none for every
other path, including paths two or more levels deep. -/
theorem parseFunction_classification (cfg : FiremynaBuildConfig) (procCwd : List String) :
    (∀ base : String, specFnFile base →
      parseFunction cfg procCwd (resolvePath cfg.cwd cfg.paths.functions.src ++ [base]) =
        some { path := relativePathOf procCwd
                 (resolvePath cfg.cwd cfg.paths.functions.src ++ [base])
               name := stemOf base }) ∧
    (∀ d base : String, base ∈ indexFileNames →
      parseFunction cfg procCwd (resolvePath cfg.cwd cfg.paths.functions.src ++ [d, base]) =
        some { path := relativePathOf procCwd
                 (resolvePath cfg.cwd cfg.paths.functions.src ++ [d, base])
               name := d }) ∧
    (∀ rel : List String,
      (¬ ∃ base, rel = [base] ∧ specFnFile base) →
      (¬ ∃ d base, rel = [d, base] ∧ base ∈ indexFileNames) →
      parseFunction cfg procCwd (resolvePath cfg.cwd cfg.paths.functions.src ++ rel) = none) := by
  refine ⟨?_, ?_, ?_⟩
  · intro base hspec
    rw [parseFunction_flat, if_pos]
    exact (fnRegExpTest_iff base).mpr hspec
  · intro d base hidx
    rw [parseFunction_one_level, if_pos]
    exact (indexRegExpTest_iff base).mpr hidx
  · intro rel h1 h2
    rcases rel with _ | ⟨x, _ | ⟨y, _ | ⟨z, rest⟩⟩⟩
    · rw [List.append_nil]
      exact parseFunction_nil cfg procCwd
    · rw [parseFunction_flat, if_neg]
      intro hfn
      exact h1 ⟨x, rfl, (fnRegExpTest_iff x).mp hfn⟩
    · rw [parseFunction_one_level, if_neg]
      intro hidx
      exact h2 ⟨x, y, rfl, (indexRegExpTest_iff y).mp hidx⟩
    · exact parseFunction_nested cfg procCwd x y z rest

/-- C1 (witness): the classification theorem applied to the flat file
`hello.ts` under `/root/fns`. -/
theorem parseFunction_classification_witness :
    parseFunction demoBuildConfig ["root"] ["root", "fns", "hello.ts"] =
      some { path := ["fns", "hello.ts"], name := "hello" } := by
  have h := (parseFunction_classification demoBuildConfig ["root"]).1 "hello.ts"
    ⟨"hello", ".ts", by decide, by decide, by decide⟩
  exact h

/-- C2: `stringifyFunctionsIndex` returns exactly the configured init
side-effect import, then one `export ... default as name ... .cjs` line per
function in list order with the function name as the binding, then the
renderer re-export when the flag is set, newline-joined; for the list
`[hello, greet]` with no init path and no renderer it is exactly the two
quoted export lines joined by a newline. -/
theorem stringifyFunctionsIndex_spec :
    (∀ (list : List FiremynaFunction) (cfg : FiremynaBuildConfig),
      cfg.config.functionsInitPath = none → cfg.renderer = false →
      stringifyFunctionsIndex list cfg =
        String.intercalate "\n" (list.map (fun fn =>
          "export \x7b default as " ++ fn.name ++ " \x7d from \"./" ++ fn.name ++ ".cjs\";"))) ∧
    (∀ (list : List FiremynaFunction) (cfg : FiremynaBuildConfig),
      stringifyFunctionsIndex list cfg =
        String.intercalate "\n"
          ((if cfg.config.functionsInitPath.isSome
              then ["import \"./init.cjs\";"] else [])
            ++ list.map (fun fn =>
              "export \x7b default as " ++ fn.name ++ " \x7d from \"./" ++ fn.name ++ ".cjs\";")
            ++ (if cfg.renderer
              then ["export \x7b default as renderer \x7d from \"./renderer\";"] else []))) ∧
    stringifyFunctionsIndex demoHelloGreet demoBuildConfig =
      "export \x7b default as hello \x7d from \"./hello.cjs\";\n" ++
      "export \x7b default as greet \x7d from \"./greet.cjs\";" := by
  refine ⟨?_, fun list cfg => rfl, by decide⟩
  intro list cfg hinit hrend
  simp [stringifyFunctionsIndex, hinit, hrend]

/-- C2 (witness): the general clause applied to the `hello`/`greet` list
and the demo configuration. -/
theorem stringifyFunctionsIndex_spec_witness :
    stringifyFunctionsIndex demoHelloGreet demoBuildConfig =
      String.intercalate "\n" (demoHelloGreet.map (fun fn =>
        "export \x7b default as " ++ fn.name ++ " \x7d from \"./" ++ fn.name ++ ".cjs\";")) :=
  stringifyFunctionsIndex_spec.1 demoHelloGreet demoBuildConfig rfl rfl

/-- C8: `includedFunction` accepts a function iff its path is not the
configured init path (compared through `normalize`), no configured ignore
pattern matches its path, and, when an allow-list is configured, its name
is listed; in particular a function at the configured init path is
excluded. -/
theorem includedFunction_spec :
    (∀ (cfg : FiremynaBuildConfig) (fn : FiremynaFunction),
      includedFunction cfg fn = true ↔
        ((∀ ip, cfg.config.functionsInitPath = some ip →
            normalizeSegs fn.path ≠ normalizeSegs ip) ∧
         (∀ r ∈ cfg.config.functionsIgnorePaths.getD [], r fn.path = false) ∧
         (∀ allow, cfg.config.onlyFunctions = some allow → fn.name ∈ allow))) ∧
    (∀ (cfg : FiremynaBuildConfig) (fn : FiremynaFunction),
      cfg.config.functionsInitPath = some fn.path → includedFunction cfg fn = false) := by
  constructor
  · intro cfg fn
    obtain ⟨cwd, paths, ⟨ip, ig, only⟩, rend⟩ := cfg
    cases ip <;> cases ig <;> cases only <;>
      simp [includedFunction, isInitPath, List.any_eq_true, and_assoc]
  · intro cfg fn h
    simp [includedFunction, isInitPath, h]

/-- C8 (witness): a function whose path is the configured init path is
excluded even though `init.ts` matches the function-file pattern. -/
theorem includedFunction_spec_witness :
    includedFunction
      { cwd := ["root"]
        paths := { functions := { src := ["fns"], build := ["build"] } }
        config := { functionsInitPath := some ["fns", "init.ts"]
                    functionsIgnorePaths := none
                    onlyFunctions := none }
        renderer := false }
      { path := ["fns", "init.ts"], name := "init" } = false :=
  includedFunction_spec.2 _ _ rfl

/-!  ## Substring lemmas for the resolver  -/

theorem listContainsSub_iff (p : List Char) (l : List Char) :
    listContainsSub p l = true ↔ ∃ x y, l = x ++ p ++ y := by
  induction l with
  | nil =>
    simp only [listContainsSub, List.isPrefixOf_iff_prefix]
    constructor
    · intro h
      exact ⟨[], [], by simp [List.prefix_nil.mp h]⟩
    · rintro ⟨x, y, hxy⟩
      have h1 := (List.append_eq_nil.mp hxy.symm)
      have h2 := (List.append_eq_nil.mp h1.1)
      simp [h2.2]
  | cons c t ih =>
    simp only [listContainsSub, Bool.or_eq_true, List.isPrefixOf_iff_prefix, ih]
    constructor
    · rintro (⟨r, hr⟩ | ⟨x, y, rfl⟩)
      · exact ⟨[], r, by simp [← hr]⟩
      · exact ⟨c :: x, y, by simp⟩
    · rintro ⟨x, y, hxy⟩
      cases x with
      | nil =>
        left
        exact ⟨y, by simpa using hxy.symm⟩
      | cons a x' =>
        right
        rw [List.cons_append, List.cons_append] at hxy
        exact ⟨x', y, (List.cons_eq_cons.mp hxy).2⟩

theorem strContains_middle (x m y : String) : strContains (x ++ m ++ y) m = true := by
  rw [strContains, listContainsSub_iff]
  exact ⟨x.data, y.data, by simp⟩

/-- C5 (counterexample): the claim says the result is external and
unresolved iff the specifier names a platform builtin, but the source tests
`path.startsWith(module)`: the non-builtin specifier `fs-extra` is returned
unresolved and external because it starts with the builtin name `fs`. -/
theorem resolvePlugin_counterexample :
    resolvePluginOnResolve nodeBuiltinModules (fun _ _ => none) "/src" "fs-extra" =
      .ok { path := "fs-extra", external := true } ∧
    "fs-extra" ∉ nodeBuiltinModules := by
  refine ⟨rfl, by decide⟩

/-- C5 (amended): the resolver returns the specifier unresolved and marked
external whenever the specifier starts with a platform builtin module name;
otherwise it returns the resolver's path, external exactly when that path
contains `node_modules`; and when the resolver cannot resolve it raises an
error whose message names the specifier and the resolution directory. -/
theorem resolvePlugin_spec :
    (∀ (builtins : List String) (rf : String → String → Option String) (dir p : String),
      (∃ m ∈ builtins, strStartsWith p m = true) →
      resolvePluginOnResolve builtins rf dir p = .ok { path := p, external := true }) ∧
    (∀ (builtins : List String) (rf : String → String → Option String) (dir p r : String),
      (∀ m ∈ builtins, strStartsWith p m = false) → rf dir p = some r →
      resolvePluginOnResolve builtins rf dir p =
        .ok { path := r, external := strContains r "node_modules" }) ∧
    (∀ (builtins : List String) (rf : String → String → Option String) (dir p : String),
      (∀ m ∈ builtins, strStartsWith p m = false) → rf dir p = none →
      ∃ msg, resolvePluginOnResolve builtins rf dir p = .error msg ∧
        strContains msg p = true ∧ strContains msg dir = true) := by
  refine ⟨?_, ?_, ?_⟩
  · rintro builtins rf dir p ⟨m, hm, hpre⟩
    rw [resolvePluginOnResolve, if_pos]
    exact List.any_eq_true.mpr ⟨m, hm, hpre⟩
  · intro builtins rf dir p r hall hrf
    rw [resolvePluginOnResolve, if_neg, hrf]
    simp only [List.any_eq_true]
    rintro ⟨m, hm, hpre⟩
    rw [hall m hm] at hpre
    exact Bool.false_ne_true hpre
  · intro builtins rf dir p hall hrf
    rw [resolvePluginOnResolve, if_neg, hrf]
    · refine ⟨"Cannot resolve " ++ p ++ " at " ++ dir, rfl, ?_, ?_⟩
      · rw [strContains, listContainsSub_iff]
        exact ⟨"Cannot resolve ".data, (" at " ++ dir).data, by simp⟩
      · rw [strContains, listContainsSub_iff]
        exact ⟨("Cannot resolve " ++ p ++ " at ").data, [], by simp⟩
    · simp only [List.any_eq_true]
      rintro ⟨m, hm, hpre⟩
      rw [hall m hm] at hpre
      exact Bool.false_ne_true hpre

/-- C5 (witness): the builtin specifier `fs` is returned unresolved and
external. -/
theorem resolvePlugin_spec_witness :
    resolvePluginOnResolve nodeBuiltinModules (fun _ _ => none) "/src" "fs" =
      .ok { path := "fs", external := true } :=
  resolvePlugin_spec.1 nodeBuiltinModules (fun _ _ => none) "/src" "fs"
    ⟨"fs", by decide, by decide⟩

/-!  ## Supervisor lemmas  -/

theorem erase_eq_nil_cases {l : List Nat} {c : Nat} (h : l.erase c = []) :
    l = [] ∨ l = [c] := by
  cases l with
  | nil => exact Or.inl rfl
  | cons a t =>
    rw [List.erase_cons] at h
    split at h
    · next heq =>
      subst h
      right
      rw [eq_of_beq heq]
    · next => exact absurd h (List.cons_ne_nil _ _)

theorem supStep_exit_empty (s : SupState) (e : SupEvent) (code : Nat)
    (h : SupAction.exit code ∈ (supStep s e).2) : (supStep s e).1.children = [] := by
  cases e with
  | signal sig =>
    simp only [supStep, exitIfNoChildren, List.mem_append, List.mem_map] at h ⊢
    rcases h with h | ⟨child, _, hkill⟩
    · split at h
      · next hempty => exact List.isEmpty_iff.mp hempty
      · next => simp at h
    · exact absurd hkill (by simp)
  | childExit c =>
    simp only [supStep, exitIfNoChildren] at h ⊢
    split at h
    · split at h
      · next hempty => exact List.isEmpty_iff.mp hempty
      · next => simp at h
    · simp at h

theorem supRun_exit_all_exited (s : SupState) (evs : List SupEvent) (c code : Nat)
    (hc : c ∈ s.children) (h : SupAction.exit code ∈ (supRun s evs).2) :
    SupEvent.childExit c ∈ evs := by
  induction evs generalizing s with
  | nil => simp [supRun] at h
  | cons e es ih =>
    simp only [supRun] at h
    rcases List.mem_append.mp h with h1 | h2
    · have hnil := supStep_exit_empty s e code h1
      cases e with
      | signal sig =>
        have hch : (supStep s (.signal sig)).1.children = s.children := rfl
        rw [hch] at hnil
        rw [hnil] at hc
        simp at hc
      | childExit c' =>
        have hch : (supStep s (.childExit c')).1.children = s.children.erase c' := rfl
        rw [hch] at hnil
        rcases erase_eq_nil_cases hnil with hl | hl
        · rw [hl] at hc
          simp at hc
        · rw [hl] at hc
          simp only [List.mem_singleton] at hc
          subst hc
          exact List.mem_cons_self _ _
    · cases e with
      | signal sig =>
        have hch : (supStep s (.signal sig)).1.children = s.children := rfl
        exact List.mem_cons_of_mem _ (ih _ (by rw [hch]; exact hc) h2)
      | childExit c' =>
        by_cases hcc : c = c'
        · subst hcc
          exact List.mem_cons_self _ _
        · have hch : (supStep s (.childExit c')).1.children = s.children.erase c' := rfl
          refine List.mem_cons_of_mem _ (ih _ ?_ h2)
          rw [hch]
          exact (List.mem_erase_of_ne hcc).mpr hc

/-- C3: a termination signal with zero live children makes the supervisor
exit immediately with status 0; an exit action is only ever emitted with an
empty live set, and over any event sequence an exit implies every initially
live child reported its exit first; a (second) signal only forwards the
signal to currently live children — never to an already-exited child, which
the exit handler removed from the live list — and the last child's exit
while draining triggers the status-0 exit. -/
theorem supervisor_shutdown :
    (∀ (s : SupState) (sig : String), s.children = [] →
      supStep s (.signal sig) =
        ({ exiting := true, children := [] }, [SupAction.exit 0])) ∧
    (∀ (s : SupState) (e : SupEvent) (code : Nat),
      SupAction.exit code ∈ (supStep s e).2 → (supStep s e).1.children = []) ∧
    (∀ (s : SupState) (evs : List SupEvent) (c code : Nat),
      c ∈ s.children → SupAction.exit code ∈ (supRun s evs).2 →
      SupEvent.childExit c ∈ evs) ∧
    (∀ (s : SupState) (sig : String) (c : Nat) (sig' : String),
      SupAction.kill c sig' ∈ (supStep s (.signal sig)).2 →
      c ∈ s.children ∧ sig' = sig) ∧
    (∀ (s : SupState) (c : Nat), s.children.Nodup →
      c ∉ (supStep s (.childExit c)).1.children) ∧
    (∀ (s : SupState) (c : Nat), s.exiting = true → s.children = [c] →
      SupAction.exit 0 ∈ (supStep s (.childExit c)).2) := by
  refine ⟨?_, supStep_exit_empty, supRun_exit_all_exited, ?_, ?_, ?_⟩
  · rintro ⟨ex, ch⟩ sig h
    cases h
    simp [supStep, exitIfNoChildren]
  · intro s sig c sig' h
    simp only [supStep, exitIfNoChildren, List.mem_append, List.mem_map] at h
    rcases h with h | ⟨child, hmem, hkill⟩
    · split at h <;> simp at h
    · obtain ⟨rfl, rfl⟩ : child = c ∧ sig = sig' := by
        injection hkill with h1 h2
        exact ⟨h1, h2⟩
      exact ⟨hmem, rfl⟩
  · intro s c hnodup
    have hch : (supStep s (.childExit c)).1.children = s.children.erase c := rfl
    rw [hch]
    exact hnodup.not_mem_erase
  · intro s c hex hch
    simp [supStep, exitIfNoChildren, hex, hch]

/-- C3 (witness): a `SIGINT` with no live children exits immediately with
status 0. -/
theorem supervisor_shutdown_witness :
    supStep { exiting := false, children := [] } (.signal "SIGINT") =
      ({ exiting := true, children := [] }, [SupAction.exit 0]) :=
  supervisor_shutdown.1 { exiting := false, children := [] } "SIGINT" rfl

/-- C6: when a unit's `rebuild()` fails, the change handler performs no
write: the disk is exactly as before and the failure propagates; when it
succeeds, the handler writes the fresh artifact. -/
theorem failed_rebuild_keeps_outputs :
    (∀ (handle : BuildHandle) (disk : String → Option String) (e : String),
      handle.rebuildResult = .error e →
      (functionChangeHandler handle disk).1 = disk ∧
      (functionChangeHandler handle disk).2 = .error e) ∧
    (∀ (handle : BuildHandle) (disk : String → Option String) (art : BuildArtifact),
      handle.rebuildResult = .ok art →
      functionChangeHandler handle disk = writeEsbuildFile art disk) := by
  constructor
  · intro handle disk e h
    constructor <;> simp [functionChangeHandler, bindFsM, rebuildUnit, h]
  · intro handle disk art h
    simp [functionChangeHandler, bindFsM, rebuildUnit, h]

/-- C6 (witness): a handler whose rebuild rejects with `boom` leaves the
(empty) disk untouched and surfaces the error. -/
theorem failed_rebuild_keeps_outputs_witness :
    (functionChangeHandler { rebuildResult := .error "boom" } (fun _ => none)).1 =
      (fun _ => none) ∧
    (functionChangeHandler { rebuildResult := .error "boom" } (fun _ => none)).2 =
      .error "boom" :=
  failed_rebuild_keeps_outputs.1 { rebuildResult := .error "boom" } (fun _ => none) "boom" rfl

/-!  ## Watch-trace lemmas  -/

theorem routeWatchEvent_ne_initial (cfg : FiremynaBuildConfig) (procCwd : List String)
    (e : ChokidarEvent) (p : List String) (fns : List FiremynaFunction) :
    routeWatchEvent cfg procCwd e p ≠ some (.initial fns) := by
  cases e <;> simp only [routeWatchEvent]
  case addDir => simp
  case unlinkDir => simp
  all_goals
    split
    · simp
    · split
      · simp
      · split <;> simp

/-- C7: every successful `watchListFunction` run delivers, first and exactly
once, an `Initial` message carrying the fresh `listFunctions` result; all
routed function/init messages come after it. -/
theorem watch_initial_first :
    ∀ (fs : FsModel) (cfg : FiremynaBuildConfig) (procCwd : List String)
      (notifs : List WatchNotification) (msgs : List FiremynaWatchMessage),
      watchListFunction fs cfg procCwd notifs = .ok msgs →
      ∃ fns, listFunctions fs cfg = .ok fns ∧
        msgs.head? = some (.initial fns) ∧
        msgs.countP (fun m => match m with | .initial _ => true | _ => false) = 1 := by
  intro fs cfg procCwd notifs msgs h
  cases hl : listFunctions fs cfg with
  | error e =>
    rw [watchListFunction, hl] at h
    exact Except.noConfusion h
  | ok fns =>
    rw [watchListFunction, hl] at h
    have hmsgs : msgs = FiremynaWatchMessage.initial fns ::
        notifs.filterMap (fun n => routeWatchEvent cfg procCwd n.event n.path) :=
      (Except.ok.inj h).symm
    subst hmsgs
    refine ⟨fns, rfl, rfl, ?_⟩
    rw [List.countP_cons_of_pos _ _ (by rfl)]
    have hzero : (notifs.filterMap
        (fun n => routeWatchEvent cfg procCwd n.event n.path)).countP
        (fun m => match m with | .initial _ => true | _ => false) = 0 := by
      rw [List.countP_eq_zero]
      intro m hm
      obtain ⟨n, _, hn⟩ := List.mem_filterMap.mp hm
      cases m with
      | initial fns' => exact absurd hn (routeWatchEvent_ne_initial cfg procCwd n.event n.path fns')
      | function ev fn => simp
      | init ev => simp
    rw [hzero]

/-- C7 (witness): over an empty source root with no notifications the trace
is exactly one `Initial` carrying the empty set. -/
theorem watch_initial_first_witness :
    ∃ fns, listFunctions emptyFs demoBuildConfig = .ok fns ∧
      ([FiremynaWatchMessage.initial []] : List FiremynaWatchMessage).head? =
        some (.initial fns) ∧
      ([FiremynaWatchMessage.initial []] : List FiremynaWatchMessage).countP
        (fun m => match m with | .initial _ => true | _ => false) = 1 :=
  watch_initial_first emptyFs demoBuildConfig ["root"] [] [.initial []] rfl

/-!  ## Discovery error propagation  -/

theorem mapM_except_error {α β : Type} (f : α → Except String β) (l : List α) (a : α)
    (ha : a ∈ l) (e : String) (hf : f a = .error e) : ∃ e', l.mapM f = .error e' := by
  induction l with
  | nil => simp at ha
  | cons x xs ih =>
    rcases List.mem_cons.mp ha with rfl | hmem
    · exact ⟨e, by rw [List.mapM_cons, hf]; rfl⟩
    · cases hx : f x with
      | error ex => exact ⟨ex, by rw [List.mapM_cons, hx]; rfl⟩
      | ok b =>
        obtain ⟨e', he'⟩ := ih hmem
        refine ⟨e', ?_⟩
        rw [List.mapM_cons, hx]
        show (xs.mapM f >>= fun bs => pure (b :: bs)) = Except.error e'
        rw [he']
        rfl

/-- C4 (counterexample): the claim says a candidate whose `stat` fails is
skipped and the rest is returned, but with `good.ts` readable and `bad.ts`
failing, `listFunctions` rejects with the candidate's error instead of
returning the `good` function — the per-candidate error is not caught. -/
theorem listFunctions_stat_error_counterexample :
    listFunctions badStatFs demoBuildConfig = .error "EACCES" ∧
    discoverCandidate badStatFs demoBuildConfig "good.ts" =
      .ok (some { path := ["fns", "good.ts"], name := "good" }) :=
  ⟨rfl, rfl⟩

/-- C4 (amended): a filesystem error on any listed candidate propagates:
whenever one candidate's processing fails, the whole `listFunctions` call
fails instead of skipping that candidate. -/
theorem listFunctions_error_propagation :
    ∀ (fs : FsModel) (cfg : FiremynaBuildConfig) (dir : List String) (item : String)
      (e : String),
      fs.readdir (resolvePath cfg.cwd cfg.paths.functions.src) = .ok dir →
      item ∈ dir → discoverCandidate fs cfg item = .error e →
      ∃ e', listFunctions fs cfg = .error e' := by
  intro fs cfg dir item e hdir hmem hfail
  obtain ⟨e', he'⟩ := mapM_except_error (discoverCandidate fs cfg) dir item hmem e hfail
  refine ⟨e', ?_⟩
  rw [listFunctions, hdir]
  show (dir.mapM (discoverCandidate fs cfg) >>= fun results =>
    pure (results.filterMap id)) = Except.error e'
  rw [he']
  rfl

/-- C4 (witness): the propagation theorem applied to the `good.ts` /
`bad.ts` filesystem. -/
theorem listFunctions_error_propagation_witness :
    ∃ e', listFunctions badStatFs demoBuildConfig = .error e' :=
  listFunctions_error_propagation badStatFs demoBuildConfig ["good.ts", "bad.ts"]
    "bad.ts" "EACCES" rfl (by decide) rfl

/-!  ## Record lemmas for the build-unit map  -/

theorem map_fst_replace {α : Type} (m : List (String × α)) (k : String) (v : α) :
    (m.map (fun kv => if kv.1 = k then (k, v) else kv)).map Prod.fst = m.map Prod.fst := by
  rw [List.map_map]
  exact List.map_congr_left (fun kv _ => by by_cases h : kv.1 = k <;> simp [h])

theorem recordSet_keys_mem {α : Type} (m : List (String × α)) (k : String) (v : α)
    (k' : String) :
    k' ∈ (recordSet m k v).map Prod.fst ↔ k' = k ∨ k' ∈ m.map Prod.fst := by
  unfold recordSet
  split
  · next hany =>
    rw [map_fst_replace]
    have hk : k ∈ m.map Prod.fst := by
      obtain ⟨kv, hkv, heq⟩ := List.any_eq_true.mp hany
      exact List.mem_map.mpr ⟨kv, hkv, of_decide_eq_true heq⟩
    constructor
    · exact Or.inr
    · rintro (rfl | h)
      · exact hk
      · exact h
  · rw [List.map_append]
    simp [or_comm]

theorem recordSet_keys_nodup {α : Type} (m : List (String × α)) (k : String) (v : α)
    (h : (m.map Prod.fst).Nodup) : ((recordSet m k v).map Prod.fst).Nodup := by
  unfold recordSet
  split
  · rw [map_fst_replace]
    exact h
  · next hany =>
    have hk : k ∉ m.map Prod.fst := by
      intro hmem
      obtain ⟨kv, hkv, hfst⟩ := List.mem_map.mp hmem
      exact hany (List.any_eq_true.mpr ⟨kv, hkv, decide_eq_true hfst⟩)
    rw [List.map_append]
    simp [List.nodup_append, h, hk]

theorem recordDelete_keys_mem {α : Type} (m : List (String × α)) (k k' : String) :
    k' ∈ (recordDelete m k).map Prod.fst ↔ k' ∈ m.map Prod.fst ∧ k' ≠ k := by
  unfold recordDelete
  constructor
  · intro h
    obtain ⟨kv, hkv, rfl⟩ := List.mem_map.mp h
    have hf := List.mem_filter.mp hkv
    exact ⟨List.mem_map.mpr ⟨kv, hf.1, rfl⟩, of_decide_eq_true hf.2⟩
  · rintro ⟨h, hne⟩
    obtain ⟨kv, hkv, rfl⟩ := List.mem_map.mp h
    exact List.mem_map.mpr ⟨kv, List.mem_filter.mpr ⟨hkv, decide_eq_true hne⟩, rfl⟩

theorem recordDelete_keys_nodup {α : Type} (m : List (String × α)) (k : String)
    (h : (m.map Prod.fst).Nodup) : ((recordDelete m k).map Prod.fst).Nodup :=
  List.Nodup.sublist ((List.filter_sublist m).map Prod.fst) h

theorem foldl_recordSet_keys_mem (mkBuild : FiremynaFunction → BuildHandle)
    (fns : List FiremynaFunction) (b : List (String × BuildHandle)) (k : String) :
    k ∈ ((fns.foldl (fun acc fn => recordSet acc fn.name (mkBuild fn)) b).map Prod.fst) ↔
      k ∈ b.map Prod.fst ∨ ∃ fn ∈ fns, fn.name = k := by
  induction fns generalizing b with
  | nil => simp
  | cons f fs ih =>
    rw [List.foldl_cons, ih, recordSet_keys_mem]
    simp only [List.mem_cons]
    constructor
    · rintro ((rfl | hb) | ⟨fn, hfn, rfl⟩)
      · exact Or.inr ⟨f, Or.inl rfl, rfl⟩
      · exact Or.inl hb
      · exact Or.inr ⟨fn, Or.inr hfn, rfl⟩
    · rintro (hb | ⟨fn, rfl | hfn, rfl⟩)
      · exact Or.inl (Or.inr hb)
      · exact Or.inl (Or.inl rfl)
      · exact Or.inr ⟨fn, hfn, rfl⟩

theorem foldl_recordSet_keys_nodup (mkBuild : FiremynaFunction → BuildHandle)
    (fns : List FiremynaFunction) (b : List (String × BuildHandle))
    (h : (b.map Prod.fst).Nodup) :
    ((fns.foldl (fun acc fn => recordSet acc fn.name (mkBuild fn)) b).map Prod.fst).Nodup := by
  induction fns generalizing b with
  | nil => exact h
  | cons f fs ih => exact ih _ (recordSet_keys_nodup _ _ _ h)

/-- C9: after the consumer processes a watch message, the build map holds
exactly one unit per live function name: the `initial` message establishes
the invariant from the starting state, every function message preserves it
(`add` appends the function and registers its unit, `unlink` removes by
name and deletes the unit, `change` leaves the state untouched), and init
messages touch neither the set nor the map. -/
theorem dev_build_map_invariant (mkBuild : FiremynaFunction → BuildHandle) :
    (∀ fns : List FiremynaFunction,
      DevInv (handleWatchMessage mkBuild devInitState (.initial fns))) ∧
    (∀ (s : DevState) (ev : ChokidarEvent) (fn : FiremynaFunction),
      DevInv s → DevInv (handleWatchMessage mkBuild s (.function ev fn))) ∧
    (∀ (s : DevState) (ev : ChokidarEvent),
      handleWatchMessage mkBuild s (.init ev) = s) ∧
    (∀ (s : DevState) (fn : FiremynaFunction),
      handleWatchMessage mkBuild s (.function .change fn) = s) ∧
    (∀ (s : DevState) (fn : FiremynaFunction),
      (handleWatchMessage mkBuild s (.function .add fn)).functions =
        s.functions ++ [fn]) ∧
    (∀ (s : DevState) (fn : FiremynaFunction),
      (handleWatchMessage mkBuild s (.function .unlink fn)).functions =
        s.functions.filter (fun g => g.name ≠ fn.name)) := by
  refine ⟨?_, ?_, fun s ev => rfl, fun s fn => rfl, fun s fn => rfl, fun s fn => rfl⟩
  · intro fns
    constructor
    · exact foldl_recordSet_keys_nodup mkBuild fns [] (by simp)
    · intro k
      rw [show (handleWatchMessage mkBuild devInitState (.initial fns)).builds =
        fns.foldl (fun b fn => recordSet b fn.name (mkBuild fn)) [] from rfl]
      rw [foldl_recordSet_keys_mem,
        show (handleWatchMessage mkBuild devInitState (.initial fns)).functions = fns from rfl]
      simp
  · intro s ev fn hinv
    obtain ⟨hnodup, hmem⟩ := hinv
    cases ev with
    | add =>
      constructor
      · exact recordSet_keys_nodup _ _ _ hnodup
      · intro k
        rw [show (handleWatchMessage mkBuild s (.function .add fn)).builds =
          recordSet s.builds fn.name (mkBuild fn) from rfl]
        rw [recordSet_keys_mem, hmem k,
          show (handleWatchMessage mkBuild s (.function .add fn)).functions =
            s.functions ++ [fn] from rfl]
        constructor
        · rintro (rfl | ⟨g, hg, rfl⟩)
          · exact ⟨fn, by simp, rfl⟩
          · exact ⟨g, by simp [hg], rfl⟩
        · rintro ⟨g, hg, rfl⟩
          rcases List.mem_append.mp hg with hg | hg
          · exact Or.inr ⟨g, hg, rfl⟩
          · rw [List.mem_singleton.mp hg]
            exact Or.inl rfl
    | change => exact ⟨hnodup, hmem⟩
    | addDir => exact ⟨hnodup, hmem⟩
    | unlinkDir => exact ⟨hnodup, hmem⟩
    | unlink =>
      constructor
      · exact recordDelete_keys_nodup _ _ hnodup
      · intro k
        rw [show (handleWatchMessage mkBuild s (.function .unlink fn)).builds =
          recordDelete s.builds fn.name from rfl]
        rw [recordDelete_keys_mem, hmem k,
          show (handleWatchMessage mkBuild s (.function .unlink fn)).functions =
            s.functions.filter (fun g => g.name ≠ fn.name) from rfl]
        constructor
        · rintro ⟨⟨g, hg, rfl⟩, hne⟩
          exact ⟨g, List.mem_filter.mpr ⟨hg, decide_eq_true hne⟩, rfl⟩
        · rintro ⟨g, hg, rfl⟩
          have hf := List.mem_filter.mp hg
          exact ⟨⟨g, hf.1, rfl⟩, of_decide_eq_true hf.2⟩

/-- C9 (witness): an `add` of `hello` from the empty starting state yields a
state satisfying the one-unit-per-name invariant. -/
theorem dev_build_map_invariant_witness :
    DevInv (handleWatchMessage (fun _ => { rebuildResult := .error "unbuilt" })
      devInitState (.function .add { path := ["fns", "hello.ts"], name := "hello" })) :=
  (dev_build_map_invariant (fun _ => { rebuildResult := .error "unbuilt" })).2.1
    devInitState .add { path := ["fns", "hello.ts"], name := "hello" }
    ⟨by simp [devInitState], by simp [devInitState]⟩

/-!  ## Discovery versus classifier naming  -/

theorem except_bind_ok {ε α β : Type} (a : α) (f : α → Except ε β) :
    (Except.ok a >>= f) = f a := rfl

theorem except_bind_error {ε α β : Type} (e : ε) (f : α → Except ε β) :
    ((Except.error e : Except ε α) >>= f) = Except.error e := rfl

theorem findFunctionPath_ok_some (fs : FsModel) (cwd path p : List String)
    (h : findFunctionPath fs cwd path = .ok (some p)) :
    (∃ st files indexFile, fs.stat path = .ok st ∧ st.isDirectory = true ∧
      fs.readdir path = .ok files ∧
      files.find? (fun file => indexRegExpTest file) = some indexFile ∧
      p = relativePathOf cwd (resolvePath path [indexFile])) ∨
    (∃ st, fs.stat path = .ok st ∧ st.isDirectory = false ∧
      fnRegExpTest (pathString path) = true ∧ p = relativePathOf cwd path) := by
  unfold findFunctionPath at h
  cases hstat : fs.stat path <;> rw [hstat] at h
  · rw [except_bind_error] at h
    exact Except.noConfusion h
  · next st =>
    rw [except_bind_ok] at h
    by_cases hdir : st.isDirectory = true
    · rw [if_pos hdir] at h
      cases hrd : fs.readdir path <;> rw [hrd] at h
      · rw [except_bind_error] at h
        exact Except.noConfusion h
      · next files =>
        rw [except_bind_ok] at h
        cases hfind : files.find? (fun file => indexRegExpTest file) <;> rw [hfind] at h
        · exact Option.noConfusion (Except.ok.inj h)
        · next indexFile =>
          exact Or.inl ⟨st, files, indexFile, rfl, hdir, rfl, hfind,
            (Option.some.inj (Except.ok.inj h)).symm⟩
    · rw [if_neg hdir] at h
      by_cases hfn : fnRegExpTest (pathString path) = true
      · rw [if_pos hfn] at h
        exact Or.inr ⟨st, rfl, by simpa using hdir, hfn,
          (Option.some.inj (Except.ok.inj h)).symm⟩
      · rw [if_neg hfn] at h
        exact Option.noConfusion (Except.ok.inj h)

/-- C10 (counterexample): the claim says discovery and the classifier give a
function the same name, but for the directory function `foo.bar/index.ts`
discovery (`listFunctions`) names it by the directory entry's stem, `foo`,
while the classifier (`parseFunction`) names it by the full directory name,
`foo.bar`. -/
theorem discovery_watch_name_counterexample :
    listFunctions dirDotFs demoBuildConfig =
      .ok [{ path := ["fns", "foo.bar", "index.ts"], name := "foo" }] ∧
    parseFunction demoBuildConfig ["root"] ["root", "fns", "foo.bar", "index.ts"] =
      some { path := ["fns", "foo.bar", "index.ts"], name := "foo.bar" } ∧
    ("foo" : String) ≠ "foo.bar" :=
  ⟨rfl, by decide, by decide⟩

/-- C10 (amended): for a source path accepted both by discovery and by the
classifier, discovery names it by the stem of the directory-listing entry;
for a flat file that is also the classifier's name, and in general the
classifier's name is either the full entry name (directory functions) or the
discovery name (flat files), so the two names agree whenever the entry name
equals its own stem — i.e. unless a function directory's name contains an
extension-like dot. -/
theorem discovery_watch_name_agreement :
    ∀ (fs : FsModel) (cfg : FiremynaBuildConfig) (procCwd : List String) (item : String)
      (fn gn : FiremynaFunction),
      discoverCandidate fs cfg item = .ok (some fn) →
      parseFunction cfg procCwd (resolvePath cfg.cwd fn.path) = some gn →
      fn.name = stemOf item ∧
      (gn.name = item ∨ gn.name = fn.name) ∧
      (stemOf item = item → gn.name = fn.name) := by
  intro fs cfg procCwd item fn gn hdisc hparse
  simp only [discoverCandidate] at hdisc
  cases hfp : findFunctionPath fs cfg.cwd
      (resolvePath (resolvePath cfg.cwd cfg.paths.functions.src) [item]) <;>
    rw [hfp] at hdisc
  · rw [except_bind_error] at hdisc
    exact Except.noConfusion hdisc
  · next path? =>
    rw [except_bind_ok] at hdisc
    cases path? with
    | none => exact Option.noConfusion (Except.ok.inj hdisc)
    | some path =>
      replace hdisc :
          (pure (if includedFunction cfg { path := path, name := (parsePath [item]).name } = true
              then some { path := path, name := (parsePath [item]).name }
              else none) : Except String (Option FiremynaFunction)) = Except.ok (some fn) := hdisc
      by_cases hinc : includedFunction cfg { path := path, name := (parsePath [item]).name } = true
      · rw [if_pos hinc] at hdisc
        have hfn : fn = { path := path, name := (parsePath [item]).name } :=
          (Option.some.inj (Except.ok.inj hdisc)).symm
        have hname : fn.name = stemOf item := by rw [hfn]; rfl
        rcases findFunctionPath_ok_some fs cfg.cwd _ path hfp with
          ⟨st, files, indexFile, _, _, _, hfind, hp⟩ | ⟨st, _, _, _, hp⟩
        · -- directory candidate: the classifier names it by the directory
          have hpath : fn.path = cfg.paths.functions.src ++ [item, indexFile] := by
            rw [hfn, hp]
            show relativePathOf cfg.cwd
              (((cfg.cwd ++ cfg.paths.functions.src) ++ [item]) ++ [indexFile]) = _
            simp [relativePathOf_append]
          rw [hpath] at hparse
          rw [show resolvePath cfg.cwd (cfg.paths.functions.src ++ [item, indexFile]) =
            resolvePath cfg.cwd cfg.paths.functions.src ++ [item, indexFile] from
              (List.append_assoc _ _ _).symm] at hparse
          rw [parseFunction_one_level] at hparse
          rw [if_pos (show indexRegExpTest indexFile = true from List.find?_some hfind)]
            at hparse
          have hgn : gn.name = item := by
            rw [← Option.some.inj hparse]
          refine ⟨hname, Or.inl hgn, fun hstem => ?_⟩
          rw [hgn, hname, hstem]
        · -- flat candidate: both names are the stem of the entry
          have hpath : fn.path = cfg.paths.functions.src ++ [item] := by
            rw [hfn, hp]
            show relativePathOf cfg.cwd ((cfg.cwd ++ cfg.paths.functions.src) ++ [item]) = _
            simp [relativePathOf_append]
          rw [hpath] at hparse
          rw [show resolvePath cfg.cwd (cfg.paths.functions.src ++ [item]) =
            resolvePath cfg.cwd cfg.paths.functions.src ++ [item] from
              (List.append_assoc _ _ _).symm] at hparse
          rw [parseFunction_flat] at hparse
          by_cases hfnre : fnRegExpTest item = true
          · rw [if_pos hfnre] at hparse
            have hgn : gn.name = stemOf item := by
              rw [← Option.some.inj hparse]
            exact ⟨hname, Or.inr (by rw [hgn, hname]), fun _ => by rw [hgn, hname]⟩
          · rw [if_neg hfnre] at hparse
            exact Option.noConfusion hparse
      · rw [if_neg hinc] at hdisc
        exact Option.noConfusion (Except.ok.inj hdisc)

/-- C10 (witness): the agreement theorem applied to the `foo.bar/index.ts`
candidate; the names disagree exactly because `stemOf "foo.bar" ≠ "foo.bar"`. -/
theorem discovery_watch_name_agreement_witness :
    (FiremynaFunction.name { path := ["fns", "foo.bar", "index.ts"], name := "foo" }) =
      stemOf "foo.bar" ∧
    ((FiremynaFunction.name { path := ["fns", "foo.bar", "index.ts"], name := "foo.bar" }) =
        "foo.bar" ∨
      (FiremynaFunction.name { path := ["fns", "foo.bar", "index.ts"], name := "foo.bar" }) =
        (FiremynaFunction.name { path := ["fns", "foo.bar", "index.ts"], name := "foo" })) ∧
    (stemOf "foo.bar" = "foo.bar" →
      (FiremynaFunction.name { path := ["fns", "foo.bar", "index.ts"], name := "foo.bar" }) =
        (FiremynaFunction.name { path := ["fns", "foo.bar", "index.ts"], name := "foo" })) :=
  discovery_watch_name_agreement dirDotFs demoBuildConfig ["root"] "foo.bar"
    { path := ["fns", "foo.bar", "index.ts"], name := "foo" }
    { path := ["fns", "foo.bar", "index.ts"], name := "foo.bar" }
    rfl (by decide)

end Firemyna
